import Mathlib

/-!
Verification of the MyQS batch job queue (`bin/myqsub.py`, `bin/myqstat.py`).

The two scripts are shallowly embedded: the job-store directory is a flat
association list from file names to file contents, every filesystem write the
scripts perform is an explicit `FsOp`, and the console output is a list of
events.  Process liveness (`syslib.Task().haspid` / `haspgid`, whose
implementation is not part of the sources here) is an abstract oracle
`Int → Bool`, following the spec's own design note: "abstract as a capability
`is_process_alive(pid) -> bool`".
-/

namespace MyQS

/-! ## Python string primitives

`int(s)`, `str.strip()`, `str(i)` and line splitting are modelled at the
character-list level.  Python's `int` accepts surrounding whitespace and an
optional sign before ASCII decimal digits (non-ASCII digits and the
underscore grouping of newer interpreters are not modelled; job ids and pids
in this system are plain ASCII decimals). -/

/-- The whitespace characters stripped by Python `str.strip()` (ASCII range;
unicode whitespace is not modelled). -/
def pySpace (c : Char) : Bool :=
  c == ' ' || c == '\t' || c == '\n' || c == '\r' || c == '\x0b' || c == '\x0c'

/-- Python `str.strip()` on a character list. -/
def pyStripL (l : List Char) : List Char :=
  ((l.dropWhile pySpace).reverse.dropWhile pySpace).reverse

/-- Python `str.strip()`. -/
def pyStrip (s : String) : String := ⟨pyStripL s.toList⟩

/-- Value of a decimal digit character. -/
def digitVal (c : Char) : Nat := c.toNat - 48

/-- Value of a list of decimal digit characters, most significant first. -/
def digitsVal (l : List Char) : Nat := l.foldl (fun a c => 10 * a + digitVal c) 0

/-- A non-empty, all-ASCII-digits character list. -/
def isDigits (l : List Char) : Bool := !l.isEmpty && l.all (·.isDigit)

/-- `int(s)` on a stripped character list: optional sign, then digits. -/
def pyParseIntL (l : List Char) : Option Int :=
  if l.head? = some '-' then
    if isDigits l.tail then some (-(digitsVal l.tail : Int)) else none
  else if l.head? = some '+' then
    if isDigits l.tail then some ((digitsVal l.tail : Int)) else none
  else if isDigits l then some ((digitsVal l : Int)) else none

/-- Python `int(s)`: strip whitespace, optional sign, ASCII decimal digits. -/
def pyParseInt (s : String) : Option Int := pyParseIntL (pyStripL s.toList)

/-- The digit character for `n < 10`. -/
def decDigit (n : Nat) : Char := Char.ofNat (48 + n)

/-- Fuel-driven digit expansion (structural recursion so that concrete
values reduce in the kernel; the fuel never runs out when `n ≤ fuel`). -/
def decDigitsGo : Nat → Nat → List Char
  | 0, n => [decDigit n]
  | fuel + 1, n =>
    if n < 10 then [decDigit n]
    else decDigitsGo fuel (n / 10) ++ [decDigit (n % 10)]

/-- The decimal digit characters of `n`, most significant first. -/
def decDigits (n : Nat) : List Char := decDigitsGo n n

/-- Decimal representation of a natural number. -/
def decRepr (n : Nat) : String := ⟨decDigits n⟩

/-- Python `str(i)` for an integer. -/
def pyStr (i : Int) : String :=
  if i < 0 then "-" ++ decRepr i.natAbs else decRepr i.natAbs

theorem decDigit_spec : ∀ n, n < 10 →
    (decDigit n).isDigit = true ∧ digitVal (decDigit n) = n := by decide

theorem digit_not_space {c : Char} (h : c.isDigit = true) : pySpace c = false := by
  revert h
  simp only [Char.isDigit, pySpace, decide_eq_true_eq, Bool.or_eq_false_iff,
    Bool.and_eq_true, beq_eq_false_iff_ne, ne_eq]
  intro h1
  refine ⟨⟨⟨⟨⟨?_, ?_⟩, ?_⟩, ?_⟩, ?_⟩, ?_⟩ <;> intro hc <;> subst hc <;>
    revert h1 <;> decide

theorem digit_ne {c d : Char} (h : c.isDigit = true) (hd : d.isDigit = false) :
    c ≠ d := by
  intro hc; subst hc; rw [h] at hd; cases hd

theorem decDigitsGo_digits :
    ∀ fuel n, n ≤ fuel → ∀ c ∈ decDigitsGo fuel n, c.isDigit = true := by
  intro fuel
  induction fuel with
  | zero =>
    intro n h c hc
    have : n = 0 := by omega
    subst this
    simp only [decDigitsGo, List.mem_singleton] at hc
    subst hc; decide
  | succ fuel ih =>
    intro n h c hc
    rw [decDigitsGo] at hc
    by_cases h10 : n < 10
    · rw [if_pos h10, List.mem_singleton] at hc
      subst hc; exact (decDigit_spec n h10).1
    · rw [if_neg h10, List.mem_append, List.mem_singleton] at hc
      rcases hc with hc | hc
      · exact ih (n / 10) (by omega) c hc
      · subst hc; exact (decDigit_spec (n % 10) (Nat.mod_lt n (by omega))).1

theorem decDigits_digits (n : Nat) : ∀ c ∈ decDigits n, c.isDigit = true :=
  decDigitsGo_digits n n le_rfl

theorem decDigits_ne_nil (n : Nat) : decDigits n ≠ [] := by
  rw [decDigits]
  cases n with
  | zero => simp [decDigitsGo]
  | succ m =>
    rw [decDigitsGo]
    by_cases h : m + 1 < 10 <;> simp [h]

theorem digitsVal_append1 (l : List Char) (c : Char) :
    digitsVal (l ++ [c]) = 10 * digitsVal l + digitVal c := by
  simp [digitsVal, List.foldl_append]

theorem digitsVal_decDigitsGo :
    ∀ fuel n, n ≤ fuel → digitsVal (decDigitsGo fuel n) = n := by
  intro fuel
  induction fuel with
  | zero =>
    intro n h
    have : n = 0 := by omega
    subst this
    decide
  | succ fuel ih =>
    intro n h
    rw [decDigitsGo]
    by_cases h10 : n < 10
    · rw [if_pos h10]
      show digitsVal [decDigit n] = n
      simp [digitsVal, (decDigit_spec n h10).2]
    · rw [if_neg h10, digitsVal_append1, ih (n / 10) (by omega),
        (decDigit_spec (n % 10) (Nat.mod_lt n (by omega))).2]
      omega

theorem digitsVal_decDigits (n : Nat) : digitsVal (decDigits n) = n :=
  digitsVal_decDigitsGo n n le_rfl

theorem isDigits_decDigits (n : Nat) : isDigits (decDigits n) = true := by
  have h1 := decDigits_ne_nil n
  have h2 := decDigits_digits n
  cases hd : decDigits n with
  | nil => exact absurd hd h1
  | cons a l =>
    simp only [isDigits, List.isEmpty_cons, Bool.not_false, Bool.true_and,
      List.all_eq_true]
    intro c hc
    simpa using h2 c (hd ▸ hc)

theorem pyStripL_eq_self (l : List Char)
    (hh : ∀ c, l.head? = some c → pySpace c = false)
    (hl : ∀ c, l.getLast? = some c → pySpace c = false) : pyStripL l = l := by
  have h1 : l.dropWhile pySpace = l := by
    cases l with
    | nil => rfl
    | cons a m => exact List.dropWhile_cons_of_neg (by simp [hh a rfl])
  have h2 : l.reverse.dropWhile pySpace = l.reverse := by
    cases hr : l.reverse with
    | nil => rfl
    | cons b t =>
      have hb : l.getLast? = some b := by
        rw [List.getLast?_eq_head?_reverse, hr]; rfl
      exact List.dropWhile_cons_of_neg (by simp [hl b hb])
  rw [pyStripL, h1, h2, List.reverse_reverse]

theorem pyStripL_digits {l : List Char} (hd : ∀ c ∈ l, c.isDigit = true) :
    pyStripL l = l := by
  refine pyStripL_eq_self l (fun c hc => ?_) (fun c hc => ?_)
  · exact digit_not_space (hd c (by cases l <;> simp_all [List.head?]))
  · exact digit_not_space (hd c (List.mem_of_getLast?_eq_some hc))

theorem head?_decDigits_not_sign (n : Nat) :
    (decDigits n).head? ≠ some '-' ∧ (decDigits n).head? ≠ some '+' := by
  cases hd : decDigits n with
  | nil => exact absurd hd (decDigits_ne_nil n)
  | cons a l =>
    have ha : a.isDigit = true := decDigits_digits n a (hd ▸ List.mem_cons_self a l)
    constructor <;> simp only [List.head?, Option.some_inj, ne_eq] <;>
      exact digit_ne ha (by decide)

theorem pyParseIntL_decDigits (n : Nat) :
    pyParseIntL (decDigits n) = some (n : Int) := by
  obtain ⟨h1, h2⟩ := head?_decDigits_not_sign n
  rw [pyParseIntL, if_neg h1, if_neg h2, if_pos (isDigits_decDigits n),
    digitsVal_decDigits]

/-- `str(i)` followed by `int(·)` returns `i`: the decimal round trip used by
the job-id counter file. -/
theorem dash_decRepr_toList (n : Nat) :
    ("-" ++ decRepr n).toList = '-' :: decDigits n := by
  show ("-" ++ decRepr n).data = '-' :: decDigits n
  rw [String.data_append]
  rfl

theorem pyParseInt_pyStr (i : Int) : pyParseInt (pyStr i) = some i := by
  by_cases h : i < 0
  · have hne : decDigits i.natAbs ≠ [] := decDigits_ne_nil _
    rw [pyStr, if_pos h, pyParseInt, dash_decRepr_toList]
    have hstrip : pyStripL ('-' :: decDigits i.natAbs) = '-' :: decDigits i.natAbs := by
      refine pyStripL_eq_self _ (fun c hc => ?_) (fun c hc => ?_)
      · simp only [List.head?, Option.some_inj] at hc; subst hc; decide
      · have hgl : ('-' :: decDigits i.natAbs).getLast? = (decDigits i.natAbs).getLast? := by
          cases hd : decDigits i.natAbs with
          | nil => exact absurd hd hne
          | cons a l => simp [hd ▸ List.getLast?_cons_cons]
        rw [hgl] at hc
        exact digit_not_space
          (decDigits_digits _ c (List.mem_of_getLast?_eq_some hc))
    rw [hstrip, pyParseIntL]
    simp only [List.head?, Option.some_inj, if_pos rfl, List.tail_cons]
    rw [if_pos (isDigits_decDigits _), digitsVal_decDigits]
    have : -((i.natAbs : Int)) = i := by
      rcases Int.natAbs_eq i with he | he <;> omega
    rw [this]
    simp
  · rw [pyStr, if_neg h, pyParseInt]
    have hdl : (decRepr i.natAbs).toList = decDigits i.natAbs := rfl
    rw [hdl, pyStripL_digits (decDigits_digits _), pyParseIntL_decDigits]
    have : ((i.natAbs : Int)) = i := by
      rcases Int.natAbs_eq i with he | he <;> omega
    rw [this]

theorem pyStr_no_newline (i : Int) : ∀ c ∈ (pyStr i).toList, (c == '\n') = false := by
  intro c hc
  rw [pyStr] at hc
  by_cases h : i < 0
  · rw [if_pos h, dash_decRepr_toList] at hc
    rcases List.mem_cons.1 hc with hc | hc
    · subst hc; decide
    · simpa using digit_ne (decDigits_digits _ c hc) (by decide)
  · rw [if_neg h] at hc
    simpa using digit_ne (decDigits_digits i.natAbs c hc) (by decide)

/-! ## The job store

The MyQS directory `~/.config/myqs/<hostname>/` is a flat association list
from file names to file contents (first binding wins, as `setF` never
duplicates a name).  Every filesystem mutation the scripts perform is an
explicit `FsOp`; console output and mutations are interleaved in one event
trace so that "at the moment X was printed" is expressible. -/

/-- The job-store directory: file name ↦ file content. -/
abbrev FS := List (String × String)

/-- Read a file (`open(...).read` succeeding iff the name is present). -/
def readF (fs : FS) (n : String) : Option String :=
  (fs.find? (fun p => p.1 == n)).map (fun p => p.2)

/-- Delete a file name from the store. -/
def eraseF (fs : FS) (n : String) : FS := fs.filter (fun p => p.1 != n)

/-- Create or overwrite a file. -/
def setF (fs : FS) (n c : String) : FS := (n, c) :: eraseF fs n

/-- A filesystem mutation performed by one of the scripts. -/
inductive FsOp where
  | fwrite (name content : String)
  | frename (src dst : String)
  | fremove (name : String)
deriving DecidableEq, Repr

/-- Apply one mutation (`os.rename` of the traces below always has an
existing source; a missing source leaves the store unchanged). -/
def applyOp (fs : FS) : FsOp → FS
  | .fwrite n c => setF fs n c
  | .frename src dst =>
    match readF fs src with
    | some c => setF (eraseF fs src) dst c
    | none => fs
  | .fremove n => eraseF fs n

def applyOps (fs : FS) (ops : List FsOp) : FS := ops.foldl applyOp fs

/-- A console or filesystem event of the two scripts. -/
inductive Ev where
  /-- a filesystem mutation -/
  | op (o : FsOp)
  /-- `MyQS cannot find "<file>" batch file.` -/
  | cannotFind (file : String)
  /-- `Batch job with jobid <id> has been submitted into MyQS.` -/
  | submitted (jobid : Int)
  /-- `MyQS batch job scheduler not running. Run "myqsd" command.` -/
  | schedulerNotRunning
deriving DecidableEq, Repr

/-- The filesystem mutations of a trace, in order. -/
def opsOf (tr : List Ev) : List FsOp :=
  tr.filterMap (fun e => match e with | .op o => some o | _ => none)

/-- The job ids of the `Batch job with jobid ... has been submitted` lines of
a trace, in order. -/
def submittedIds (tr : List Ev) : List Int :=
  tr.filterMap (fun e => match e with | .submitted i => some i | _ => none)

/-- Process environment of one script run.  `alive`/`alivePg` are the
`syslib.Task().haspid` / `haspgid` oracles.  Modelled from the spec: the
`syslib` module is not among the sources; the spec directs "abstract as a
capability `is_process_alive(pid) -> bool`".  `isfile` answers
`os.path.isfile` for command files outside the store, `readExt` reads
files outside the store (job logfiles), `isdir` answers `os.path.isdir`. -/
structure Env where
  pid : Int
  alive : Int → Bool
  alivePg : Int → Bool
  isfile : String → Bool
  cwd : String
  pathEnv : String
  home : String
  isdir : String → Bool
  readExt : String → Option String

/-! ## myqsub.py -/

/-- Python `file.readline()` (up to the first newline), as fed to
`int(... .strip())`. -/
def firstLine (s : String) : String := ⟨s.toList.takeWhile (fun c => !(c == '\n'))⟩

/-- `Submit._lastjob`, the job id it returns: read `myqs.last` (first line,
stripped, parsed), add one, reset to 1 if the file is missing, unparsable or
the sum exceeds 32767. -/
def lastjobId (fs : FS) : Int :=
  match readF fs "myqs.last" with
  | none => 1
  | some content =>
    match pyParseInt (firstLine content) with
    | none => 1
    | some n => if n + 1 > 32767 then 1 else n + 1

/-- `Submit._lastjob`, the write it performs: the new id, directly into
`myqs.last` (`open(lastjob, 'w')` — not a temp-file + rename). -/
def lastjobOp (fs : FS) : FsOp :=
  .fwrite "myqs.last" (pyStr (lastjobId fs) ++ "\n")

/-- The descriptor content `Submit._submit` writes for one job: five
`print(KEY=value)` lines. -/
def descriptor (env : Env) (file queue : String) (ncpus : Int) : String :=
  "COMMAND=" ++ file ++ "\n" ++ "DIRECTORY=" ++ env.cwd ++ "\n" ++
  "PATH=" ++ env.pathEnv ++ "\n" ++ "QUEUE=" ++ queue ++ "\n" ++
  "NCPUS=" ++ pyStr ncpus ++ "\n"

/-- The `for file in options.get_files()` loop of `Submit._submit`: a missing
file prints `cannot find` and returns; an existing file allocates an id via
`_lastjob`, writes the descriptor to `newjob.tmp`, renames it to `<id>.q` and
prints the `submitted` line. -/
def submitLoop (env : Env) (queue : String) (ncpus : Int) :
    List String → FS → List Ev
  | [], _ => []
  | file :: rest, fs =>
    if env.isfile file then
      let jobid := lastjobId fs
      let op1 := lastjobOp fs
      let op2 := FsOp.fwrite "newjob.tmp" (descriptor env file queue ncpus)
      let op3 := FsOp.frename "newjob.tmp" (pyStr jobid ++ ".q")
      Ev.op op1 :: Ev.op op2 :: Ev.op op3 :: Ev.submitted jobid ::
        submitLoop env queue ncpus rest (applyOp (applyOp (applyOp fs op1) op2) op3)
    else [Ev.cannotFind file]

/-- One pass of the `while True` loop of `Submit._lock`: `some ops` when the
lock is acquired in this pass, `none` when the pass ends in `time.sleep(1)`
(lock file present whose content is unparsable or names a live process). -/
def lockAttempt (env : Env) (fs : FS) : Option (List FsOp) :=
  match readF fs "myqsub.pid" with
  | none => some [.fwrite "myqsub.pid" (pyStr env.pid ++ "\n")]
  | some content =>
    match pyParseInt (firstLine content) with
    | none => none
    | some p =>
      if env.alive p then none
      else some [.fremove "myqsub.pid", .fwrite "myqsub.pid" (pyStr env.pid ++ "\n")]

/-- `Submit._myqsd` / `Stats._myqsd` (identical logic): read `myqsd.pid`;
missing or unparsable → print the `scheduler not running` line; live pid →
silent; dead pid → remove the stale lock, then print the line. -/
def myqsdCheck (env : Env) (fs : FS) : List Ev :=
  match readF fs "myqsd.pid" with
  | none => [Ev.schedulerNotRunning]
  | some content =>
    match pyParseInt (firstLine content) with
    | none => [Ev.schedulerNotRunning]
    | some p =>
      if env.alive p then []
      else [Ev.op (.fremove "myqsd.pid"), Ev.schedulerNotRunning]

/-- `Submit.__init__` once the store directory exists: one lock-acquisition
pass (`none` when that pass would sleep), the submission loop, removal of the
lock file, then the daemon-liveness check. -/
def submitRun (env : Env) (queue : String) (ncpus : Int) (files : List String)
    (fs : FS) : Option (List Ev) :=
  match lockAttempt env fs with
  | none => none
  | some lops =>
    let fs1 := applyOps fs lops
    let tr := submitLoop env queue ncpus files fs1
    let fs2 := applyOps fs1 (opsOf tr)
    some ((lops.map Ev.op) ++ tr ++ [Ev.op (.fremove "myqsub.pid")] ++ myqsdCheck env fs2)

/-! ### Store lemmas -/

theorem readF_cons (m c : String) (fs : FS) (n : String) :
    readF ((m, c) :: fs) n = if m = n then some c else readF fs n := by
  by_cases h : m = n <;> simp [readF, List.find?_cons, h]

theorem readF_eraseF (fs : FS) (m n : String) :
    readF (eraseF fs m) n = if m = n then none else readF fs n := by
  induction fs with
  | nil => by_cases h : m = n <;> simp [readF, eraseF, h]
  | cons p t ih =>
    obtain ⟨a, b⟩ := p
    have hfc : eraseF ((a, b) :: t) m
        = if a = m then eraseF t m else (a, b) :: eraseF t m := by
      by_cases ha : a = m <;> simp [eraseF, List.filter_cons, ha]
    by_cases ha : a = m
    · rw [hfc, if_pos ha, ih, readF_cons]
      by_cases hn : m = n
      · rw [if_pos hn, if_pos hn]
      · rw [if_neg hn, if_neg hn, if_neg (by rw [ha]; exact hn)]
    · rw [hfc, if_neg ha, readF_cons, readF_cons, ih]
      by_cases hn : a = n
      · rw [if_pos hn, if_pos hn,
          if_neg (by rw [← hn]; intro hmn; exact ha hmn.symm)]
      · rw [if_neg hn, if_neg hn]

theorem readF_setF (fs : FS) (m c n : String) :
    readF (setF fs m c) n = if m = n then some c else readF fs n := by
  rw [setF, readF_cons]
  by_cases h : m = n
  · simp [h]
  · simp [h, readF_eraseF]

theorem applyOps_append (fs : FS) (l1 l2 : List FsOp) :
    applyOps fs (l1 ++ l2) = applyOps (applyOps fs l1) l2 := by
  simp [applyOps, List.foldl_append]

theorem opsOf_append (t1 t2 : List Ev) : opsOf (t1 ++ t2) = opsOf t1 ++ opsOf t2 := by
  simp [opsOf, List.filterMap_append]

theorem submittedIds_append (t1 t2 : List Ev) :
    submittedIds (t1 ++ t2) = submittedIds t1 ++ submittedIds t2 := by
  simp [submittedIds, List.filterMap_append]

theorem lastjobId_none (fs : FS) (hc : readF fs "myqs.last" = none) :
    lastjobId fs = 1 := by
  rw [lastjobId, hc]

theorem lastjobId_unparsable (fs : FS) (c : String)
    (hc : readF fs "myqs.last" = some c) (hp : pyParseInt (firstLine c) = none) :
    lastjobId fs = 1 := by
  rw [lastjobId, hc]
  simp [hp]

theorem lastjobId_parsed (fs : FS) (c : String) (n : Int)
    (hc : readF fs "myqs.last" = some c) (hp : pyParseInt (firstLine c) = some n) :
    lastjobId fs = if n + 1 > 32767 then 1 else n + 1 := by
  rw [lastjobId, hc]
  simp [hp]

theorem lockAttempt_dead (env : Env) (fs : FS) (c : String) (p : Int)
    (hc : readF fs "myqsub.pid" = some c)
    (hp : pyParseInt (firstLine c) = some p) (ha : env.alive p = false) :
    lockAttempt env fs
      = some [.fremove "myqsub.pid", .fwrite "myqsub.pid" (pyStr env.pid ++ "\n")] := by
  rw [lockAttempt, hc]
  simp [hp, ha]

theorem myqsdCheck_none (env : Env) (fs : FS)
    (hc : readF fs "myqsd.pid" = none) :
    myqsdCheck env fs = [Ev.schedulerNotRunning] := by
  rw [myqsdCheck, hc]

theorem myqsdCheck_unparsable (env : Env) (fs : FS) (c : String)
    (hc : readF fs "myqsd.pid" = some c) (hp : pyParseInt (firstLine c) = none) :
    myqsdCheck env fs = [Ev.schedulerNotRunning] := by
  rw [myqsdCheck, hc]
  simp [hp]

theorem myqsdCheck_alive (env : Env) (fs : FS) (c : String) (p : Int)
    (hc : readF fs "myqsd.pid" = some c)
    (hp : pyParseInt (firstLine c) = some p) (ha : env.alive p = true) :
    myqsdCheck env fs = [] := by
  rw [myqsdCheck, hc]
  simp [hp, ha]

theorem myqsdCheck_dead (env : Env) (fs : FS) (c : String) (p : Int)
    (hc : readF fs "myqsd.pid" = some c)
    (hp : pyParseInt (firstLine c) = some p) (ha : env.alive p = false) :
    myqsdCheck env fs = [Ev.op (.fremove "myqsd.pid"), Ev.schedulerNotRunning] := by
  rw [myqsdCheck, hc]
  simp [hp, ha]

/-! ## myqstat.py -/

/-- Python `content.split('\n')` at the character level (the `for line in
ifile` iteration differs from this splitting only by the trailing `'\n'`
kept on each line, which the subsequent `.strip()` / `.rstrip()` removes). -/
def splitOnNL (l : List Char) : List (List Char) :=
  match l with
  | [] => [[]]
  | c :: r =>
    if c = '\n' then [] :: splitOnNL r
    else
      match splitOnNL r with
      | [] => [[c]]
      | h :: t => (c :: h) :: t

/-- One descriptor line as read by `Stats._showjobs`: strip, and if the
stripped line contains `'='`, map the part before the first `'='` to the part
after it. -/
def lineKVL (l : List Char) : Option (String × String) :=
  let t := pyStripL l
  if t.contains '=' then
    some (⟨t.takeWhile (fun c => !(c == '='))⟩,
      ⟨(t.dropWhile (fun c => !(c == '='))).tail⟩)
  else none

/-- The `info` dictionary `Stats._showjobs` builds from a descriptor file. -/
def infoOf (content : String) : List (String × String) :=
  (splitOnNL content.toList).filterMap lineKVL

/-- Python dict lookup on the built-up `info` (a later line assigning the
same key overwrites an earlier one, hence the last binding wins). -/
def dictGet (info : List (String × String)) (k : String) : Option String :=
  (info.reverse.find? (fun p => p.1 == k)).map (fun p => p.2)

/-- Strip an optional leading sign. -/
def dropSign : List Char → List Char
  | '+' :: r => r
  | '-' :: r => r
  | l => l

/-- Outcome of the `try` block of `Stats._show_details` as a function of the
`START` value: the block computes `int((time.time()-float(start))/60.)`
before reading `PGID`, so

  * a string `float()` rejects raises `ValueError` — caught, state
    unchanged, `PGID` never read;
  * a string parsing to a nan makes `int()` raise `ValueError` — likewise
    caught, state unchanged, `PGID` never read;
  * a string parsing to ±infinity makes `int()` raise `OverflowError` —
    not caught, the whole run aborts;
  * only a string parsing to a finite float reaches the `PGID` logic
    (`time.time()` is a few 1e9, so the subtraction and division never
    overflow a finite value into an infinity, and produce a nan only from
    a nan). -/
inductive FloatClass where
  | notFloat
  | nanVal
  | infVal
  | finiteVal
deriving DecidableEq

/-- Whether the exact decimal value `m * 10^e` rounds to ±infinity as an
IEEE binary64: under round-to-nearest-even this happens exactly for
magnitudes of at least `T = 2^1024 - 2^970` (the midpoint above the
largest finite double).  Since `10^308 < T < 10^309` and `m` has
`(decDigits m).length` decimal digits, a value whose digit count plus `e`
is at least 310 is at least `10^309` and overflows, one where that sum is
at most 308 stays below `10^308` and does not; only the remaining band is
decided by the exact threshold comparison. -/
def dblOverflow (m : Nat) (e : Int) : Bool :=
  if m = 0 then false
  else if (((decDigits m).length : Int) + e) ≥ 310 then true
  else if (((decDigits m).length : Int) + e) ≤ 308 then false
  else if 0 ≤ e then 2 ^ 1024 - 2 ^ 970 ≤ m * 10 ^ e.toNat
  else (2 ^ 1024 - 2 ^ 970) * 10 ^ (-e).toNat ≤ m

/-- Digits on at least one side of an optional decimal point: the combined
digit value and the number of fractional digits. -/
def mantissaVal (l : List Char) : Option (Nat × Nat) :=
  let a := l.takeWhile (fun c => !(c == '.'))
  let b := l.dropWhile (fun c => !(c == '.'))
  match b with
  | [] => if isDigits a then some (digitsVal a, 0) else none
  | _ :: b' =>
    if a.all (·.isDigit) && b'.all (·.isDigit) && (!a.isEmpty || !b'.isEmpty)
    then some (digitsVal (a ++ b'), b'.length)
    else none

/-- An optionally signed digit run (the exponent of a float literal). -/
def expVal (l : List Char) : Option Int :=
  match l with
  | '+' :: r => if isDigits r then some ((digitsVal r : Int)) else none
  | '-' :: r => if isDigits r then some (-(digitsVal r : Int)) else none
  | r => if isDigits r then some ((digitsVal r : Int)) else none

/-- Classify Python `float(s)` for the `_show_details` try block (the
elapsed-minutes figure itself is display formatting, elided from the
model).  Grammar: strip, optional sign, then case-insensitive
`inf`/`infinity`/`nan` or a decimal mantissa with an optional exponent; a
numeric literal classifies as infinite iff its exact value reaches the
binary64 overflow threshold (the sign never matters: both infinities
overflow `int()`, and a nan is a nan signed or not).  Underscore-grouped
literals of Python ≥ 3.6 and non-ASCII digits are not modelled. -/
def pyFloatClass (s : String) : FloatClass :=
  let l := dropSign (pyStripL s.toList)
  let low := l.map Char.toLower
  if low = "inf".toList || low = "infinity".toList then .infVal
  else if low = "nan".toList then .nanVal
  else
    let m := l.takeWhile (fun c => !(c == 'e') && !(c == 'E'))
    let e := l.dropWhile (fun c => !(c == 'e') && !(c == 'E'))
    match mantissaVal m, e with
    | none, _ => .notFloat
    | some (mv, fl), [] =>
      if dblOverflow mv (-(fl : Int)) then .infVal else .finiteVal
    | some (mv, fl), _ :: erest =>
      match expVal erest with
      | none => .notFloat
      | some ev =>
        if dblOverflow mv (ev - (fl : Int)) then .infVal else .finiteVal

/-- Python `str.rstrip()`. -/
def pyRStrip (l : List Char) : List Char := (l.reverse.dropWhile pySpace).reverse

/-- The lines of a logfile as Python's file iteration yields them (without
the final empty segment a trailing newline would produce). -/
def pyLines (l : List Char) : List (List Char) :=
  let parts := splitOnNL l
  if parts.getLast? = some [] then parts.dropLast else parts

/-- `os.path.basename`: the part after the last `'/'`. -/
def baseName (s : String) : String :=
  ⟨(s.toList.reverse.takeWhile (fun c => !(c == '/'))).reverse⟩

/-- One row of the `Stats._showjobs` table.  The `TIME` column (elapsed
minutes, floating-point formatting) is elided; `logTail` holds the up to five
trailing logfile lines `_show_details` prints under the row. -/
structure DisplayLine where
  jobid : Int
  queue : String
  command : String
  ncpus : String
  state : String
  logTail : List String
deriving DecidableEq, Repr

/-- The final `print` of `Stats._show_details`: `info['QUEUE']`,
`info['COMMAND']`, `info['NCPUS']` — a missing key raises an uncaught
`KeyError` (`none`). -/
def mkLine (info : List (String × String)) (jobid : Int) (state : String)
    (tail : List String) : Option DisplayLine :=
  match dictGet info "QUEUE", dictGet info "COMMAND", dictGet info "NCPUS" with
  | some q, some c, some n => some ⟨jobid, q, c, n, state, tail⟩
  | _, _, _ => none

/-- The last five `rstrip`ped lines of the logfile (the incremental
`(output + [line])[-5:]` of the source keeps exactly the trailing five). -/
def logTailOf (c : String) : List String :=
  let ls := (pyLines c.toList).map (fun l => (⟨pyRStrip l⟩ : String))
  ls.drop (ls.length - 5)

/-- `Stats._show_details`, excluding the printed elapsed-minutes figure:
with a `START` key whose value classifies as a finite float, a missing
`PGID` key raises `KeyError` (`none`: the run aborts); an unparsable
`PGID` only falls into the `except ValueError` branch; a live process
group reads the logfile (in `DIRECTORY` if it is a directory, else in
`HOME`); a dead one turns the displayed state into `STOP`.  Without
`START`, or when the try block raises `ValueError` (a value `float()`
rejects, or a nan that `int()` rejects), the state is displayed
unchanged and `PGID` is never read; a `START` classifying as ±infinity
makes `int()` raise an uncaught `OverflowError` (`none`). -/
def showDetails (env : Env) (info : List (String × String)) (jobid : Int)
    (state : String) : Option DisplayLine :=
  match dictGet info "START" with
  | none => mkLine info jobid state []
  | some start =>
    match pyFloatClass start with
    | .notFloat => mkLine info jobid state []
    | .nanVal => mkLine info jobid state []
    | .infVal => none
    | .finiteVal =>
      match dictGet info "PGID" with
      | none => none
      | some pg =>
        match pyParseInt pg with
        | none => mkLine info jobid state []
        | some pgid =>
          if env.alivePg pgid then
            match dictGet info "DIRECTORY", dictGet info "COMMAND" with
            | some dir, some cmd =>
              let logdir := if env.isdir dir then dir else env.home
              let logfile := logdir ++ "/" ++ baseName cmd ++ ".o" ++ pyStr jobid
              let tail := match env.readExt logfile with
                | none => []
                | some c => logTailOf c
              mkLine info jobid state tail
            | _, _ => none
          else mkLine info jobid "STOP" []

/-- The body of one `Stats._showjobs` iteration once a descriptor has been
read: build `info`, and call `_show_details` when `NCPUS` is present. -/
def showJobFrom (env : Env) (content : String) (jobid : Int) (state : String) :
    Option (List DisplayLine) :=
  let info := infoOf content
  if (dictGet info "NCPUS").isSome then
    (showDetails env info jobid state).map (fun l => [l])
  else some []

/-- Which file one `Stats._showjobs` iteration reads for a job id: `<id>.q`
(state `QUEUE`) if it opens, else `<id>.r` (state `RUN`), else skip. -/
def readJobContent (fs : FS) (i : Int) : Option (String × String) :=
  match readF fs (pyStr i ++ ".q") with
  | some c => some (c, "QUEUE")
  | none =>
    match readF fs (pyStr i ++ ".r") with
    | some c => some (c, "RUN")
    | none => none

/-- One `Stats._showjobs` iteration for a job id (`none` = uncaught
exception aborts the whole run). -/
def showJob (env : Env) (fs : FS) (i : Int) : Option (List DisplayLine) :=
  match readJobContent fs i with
  | none => some []
  | some (content, state) => showJobFrom env content i state

/-- Whether a directory entry matches the `glob` pattern `*.[qr]` (a name
with a leading dot is not matched by `*`). -/
def matchQR (n : String) : Bool :=
  !(n.toList.head? == some '.') &&
    (".q".toList.isSuffixOf n.toList || ".r".toList.isSuffixOf n.toList)

/-- Python `basename[:-2]`: the name without its last two characters. -/
def stripExt2 (n : String) : String := ⟨n.toList.dropLast.dropLast⟩

/-- The job id a directory entry contributes to the `jobids` list of
`Stats._showjobs` (`none`: not matched by the glob, or `int()` raises and
the entry is silently ignored). -/
def gName (n : String) : Option Int :=
  if matchQR n then pyParseInt (stripExt2 n) else none

/-- The `jobids` list of `Stats._showjobs`, before sorting. -/
def jobidsOf (fs : FS) : List Int := fs.filterMap (fun p => gName p.1)

/-- The `for jobid in sorted(jobids)` loop (`none` = uncaught exception). -/
def showJobsList (env : Env) (fs : FS) : List Int → Option (List DisplayLine)
  | [] => some []
  | i :: rest =>
    match showJob env fs i with
    | none => none
    | some l =>
      match showJobsList env fs rest with
      | none => none
      | some r => some (l ++ r)

/-- `Stats._showjobs`: the displayed table, `none` when a malformed
descriptor raises an uncaught `KeyError`. -/
def showJobs (env : Env) (fs : FS) : Option (List DisplayLine) :=
  showJobsList env fs (List.insertionSort (fun a b => a ≤ b) (jobidsOf fs))

/-- Outcome of one run of the status tool. -/
structure StatsResult where
  table : Option (List DisplayLine)
  events : List Ev
  fs : FS
  exitCode : Nat
deriving DecidableEq, Repr

/-- `Stats.__init__` after the header: `_showjobs` then `_myqsd`; `Main`
exits 0 on completion, while an uncaught exception from the scan aborts the
interpreter (exit 1) before `_myqsd` runs. -/
def statsRun (env : Env) (fs : FS) : StatsResult :=
  match showJobs env fs with
  | none => ⟨none, [], fs, 1⟩
  | some tbl =>
    let evs := myqsdCheck env fs
    ⟨some tbl, evs, applyOps fs (opsOf evs), 0⟩

/-- The condition under which `Stats._show_details` displays `STOP`: a
`START` value classifying as a finite float together with a `PGID` value
parsing to a process group with no live members. -/
def stopCond (env : Env) (info : List (String × String)) : Bool :=
  match dictGet info "START" with
  | none => false
  | some start =>
    (pyFloatClass start == FloatClass.finiteVal) &&
      (match dictGet info "PGID" with
       | none => false
       | some pg =>
         match pyParseInt pg with
         | none => false
         | some pgid => !env.alivePg pgid)

/-! ## Concrete test environment for witnesses and counterexamples -/

/-- A concrete environment: pid 7 is the only live process and process
group, `missing.sh` the only missing command file, no logfiles readable. -/
def envT : Env where
  pid := 42
  alive := fun p => p == 7
  alivePg := fun g => g == 7
  isfile := fun f => f != "missing.sh"
  cwd := "/work"
  pathEnv := "/bin"
  home := "/h"
  isdir := fun _ => false
  readExt := fun _ => none

/-! ## Claims -/

/-- The job-id allocator as the spec words it: read the last value
(defaulting to 0 when the file is missing or unparsable), increment, wrap to
1 when the result exceeds 32767. -/
def specNextId (stored : Option Int) : Int :=
  let last := stored.getD 0
  let next := last + 1
  if next > 32767 then 1 else next

/-- **C3**: `next_id` reads the persisted last value (default 0 when
`myqs.last` is missing or unparsable), increments, wraps to 1 whenever the
result would exceed 32767, persists the new value and returns it; allocating
when the stored counter is 32767 returns 1. -/
theorem lastjob_allocator_spec (fs : FS) :
    lastjobId fs
      = specNextId ((readF fs "myqs.last").bind (fun c => pyParseInt (firstLine c)))
    ∧ lastjobOp fs = .fwrite "myqs.last" (pyStr (lastjobId fs) ++ "\n")
    ∧ (∀ c, readF fs "myqs.last" = some c → pyParseInt (firstLine c) = some 32767 →
        lastjobId fs = 1) := by
  refine ⟨?_, rfl, ?_⟩
  · cases h : readF fs "myqs.last" with
    | none => rw [lastjobId_none fs h]; simp [specNextId, h]
    | some c =>
      cases hp : pyParseInt (firstLine c) with
      | none => rw [lastjobId_unparsable fs c h hp]; simp [specNextId, h, hp]
      | some n => rw [lastjobId_parsed fs c n h hp]; simp [specNextId, h, hp]
  · intro c hc hp
    rw [lastjobId_parsed fs c 32767 hc hp]
    norm_num

/-- Witness for C3 at a stored counter of 32767. -/
theorem lastjob_allocator_spec_witness :
    lastjobId [("myqs.last", "32767\n")] = 1 :=
  (lastjob_allocator_spec [("myqs.last", "32767\n")]).2.2 "32767\n"
    (by rfl) (by decide)

/-- **C4**: when the submission lock file holds the pid of a dead process,
one pass of `_lock` removes the stale file and acquires the lock, leaving a
lock file with the caller's own pid. -/
theorem lock_stale_reclaim (env : Env) (fs : FS) (content : String) (p : Int)
    (hc : readF fs "myqsub.pid" = some content)
    (hp : pyParseInt (firstLine content) = some p)
    (hdead : env.alive p = false) :
    lockAttempt env fs
      = some [.fremove "myqsub.pid", .fwrite "myqsub.pid" (pyStr env.pid ++ "\n")]
    ∧ readF (applyOps fs [.fremove "myqsub.pid",
        .fwrite "myqsub.pid" (pyStr env.pid ++ "\n")]) "myqsub.pid"
      = some (pyStr env.pid ++ "\n") := by
  constructor
  · exact lockAttempt_dead env fs content p hc hp hdead
  · show readF (setF (eraseF fs "myqsub.pid") "myqsub.pid" _) "myqsub.pid" = _
    rw [readF_setF, if_pos rfl]

/-- Witness for C4: a lock file naming dead pid 9 is reclaimed. -/
theorem lock_stale_reclaim_witness :
    lockAttempt envT [("myqsub.pid", "9\n")]
      = some [.fremove "myqsub.pid",
        .fwrite "myqsub.pid" (pyStr (42 : Int) ++ "\n")] :=
  (lock_stale_reclaim envT [("myqsub.pid", "9\n")] "9\n" 9 (by rfl) (by decide)
    (by decide)).1

/-- **C7, counterexample**: with a descriptor `1.q` containing only
`NCPUS=1`, the final print of `_show_details` raises an uncaught
`KeyError('QUEUE')`; the run aborts with exit code 1 and prints no
daemon-liveness line although `myqsd.pid` is absent — against the claim that
every run with an absent lock prints the line and exits 0. -/
theorem stats_daemon_line_counterexample :
    readF [("1.q", "NCPUS=1\n")] "myqsd.pid" = none
    ∧ (statsRun envT [("1.q", "NCPUS=1\n")]).exitCode = 1
    ∧ Ev.schedulerNotRunning ∉ (statsRun envT [("1.q", "NCPUS=1\n")]).events := by
  refine ⟨rfl, rfl, ?_⟩
  show Ev.schedulerNotRunning ∉ ([] : List Ev)
  simp

/-- **C7 (amended)**: provided the job-table scan completes — no descriptor
aborts the run with an uncaught exception (`KeyError` from a missing
`QUEUE`/`COMMAND`/`PGID`/`DIRECTORY` key, or `OverflowError` from a `START`
parsing to ±infinity; `showJobs … = some …` holds exactly when no such
abort occurs) — the status tool exits 0; the scheduler-not-running line is
printed when `myqsd.pid` is absent or names a dead pid, and is not printed
when it names a live pid. -/
theorem stats_daemon_line (env : Env) (fs : FS) (tbl : List DisplayLine)
    (hscan : showJobs env fs = some tbl) :
    (statsRun env fs).exitCode = 0
    ∧ (readF fs "myqsd.pid" = none →
        Ev.schedulerNotRunning ∈ (statsRun env fs).events)
    ∧ (∀ c p, readF fs "myqsd.pid" = some c → pyParseInt (firstLine c) = some p →
        ((env.alive p = false → Ev.schedulerNotRunning ∈ (statsRun env fs).events)
         ∧ (env.alive p = true →
            Ev.schedulerNotRunning ∉ (statsRun env fs).events))) := by
  simp only [statsRun, hscan]
  refine ⟨by trivial, ?_, ?_⟩
  · intro h
    rw [myqsdCheck_none env fs h]
    exact List.mem_singleton.2 rfl
  · intro c p hc hp
    constructor
    · intro hd
      rw [myqsdCheck_dead env fs c p hc hp hd]
      simp
    · intro ha
      rw [myqsdCheck_alive env fs c p hc hp ha]
      simp

/-- Witness for C7 (amended) on an empty store. -/
theorem stats_daemon_line_witness :
    (statsRun envT []).exitCode = 0
    ∧ Ev.schedulerNotRunning ∈ (statsRun envT []).events := by
  have h := stats_daemon_line envT [] [] (by rfl)
  exact ⟨h.1, h.2.1 rfl⟩

/-- **C9**: the status reporter mutates nothing but possibly a stale
`myqsd.pid`: every other name reads the same after the run, and the store
either is unchanged or lost exactly `myqsd.pid`, the latter only when that
file named a dead pid. -/
theorem stats_frame (env : Env) (fs : FS) :
    (∀ n, n ≠ "myqsd.pid" → readF (statsRun env fs).fs n = readF fs n)
    ∧ ((statsRun env fs).fs = fs
       ∨ ((statsRun env fs).fs = eraseF fs "myqsd.pid"
          ∧ ∃ c p, readF fs "myqsd.pid" = some c
            ∧ pyParseInt (firstLine c) = some p ∧ env.alive p = false)) := by
  cases hscan : showJobs env fs with
  | none => simp [statsRun, hscan]
  | some tbl =>
    simp only [statsRun, hscan]
    cases hc : readF fs "myqsd.pid" with
    | none =>
      rw [myqsdCheck_none env fs hc]
      exact ⟨fun n _ => rfl, Or.inl rfl⟩
    | some c =>
      cases hp : pyParseInt (firstLine c) with
      | none =>
        rw [myqsdCheck_unparsable env fs c hc hp]
        exact ⟨fun n _ => rfl, Or.inl rfl⟩
      | some p =>
        by_cases ha : env.alive p
        · rw [myqsdCheck_alive env fs c p hc hp ha]
          exact ⟨fun n _ => rfl, Or.inl rfl⟩
        · rw [myqsdCheck_dead env fs c p hc hp (by simpa using ha)]
          refine ⟨fun n hn => ?_, Or.inr ⟨rfl, c, p, rfl, hp, by simpa using ha⟩⟩
          show readF (eraseF fs "myqsd.pid") n = readF fs n
          rw [readF_eraseF, if_neg (fun h => hn h.symm)]

/-- Witness for C9: a job descriptor reads identically after a reporter run. -/
theorem stats_frame_witness :
    readF (statsRun envT [("2.q", "QUEUE=normal\nCOMMAND=c.sh\nNCPUS=1\n")]).fs "2.q"
      = readF [("2.q", "QUEUE=normal\nCOMMAND=c.sh\nNCPUS=1\n")] "2.q" :=
  (stats_frame envT [("2.q", "QUEUE=normal\nCOMMAND=c.sh\nNCPUS=1\n")]).1 "2.q"
    (by decide)

/-- **C1, counterexample**: with `missing.sh` absent and `a.sh` present, the
batch `[missing.sh, a.sh]` produces only the cannot-find report and leaves
the store untouched: the existing `a.sh`, later in the argument list, gets
no job id and no `.q` file — the batch is aborted, not continued. -/
theorem submit_missing_counterexample :
    envT.isfile "a.sh" = true
    ∧ submitLoop envT "normal" 1 ["missing.sh", "a.sh"] [] = [Ev.cannotFind "missing.sh"]
    ∧ applyOps [] (opsOf (submitLoop envT "normal" 1 ["missing.sh", "a.sh"] [])) = [] :=
  ⟨rfl, rfl, rfl⟩

/-- **C1 (amended)**: a missing command file is reported and the submission
loop returns at once: files before it in the batch are submitted normally,
the missing file and every file after it are not processed (no job id, no
`.q` file for them). -/
theorem submit_missing_aborts (env : Env) (queue : String) (ncpus : Int)
    (pre post : List String) (f : String) (fs : FS)
    (hpre : ∀ g ∈ pre, env.isfile g = true) (hf : env.isfile f = false) :
    submitLoop env queue ncpus (pre ++ f :: post) fs
      = submitLoop env queue ncpus pre fs ++ [Ev.cannotFind f] := by
  induction pre generalizing fs with
  | nil =>
    rw [List.nil_append, submitLoop]
    simp [hf, submitLoop]
  | cons g rest ih =>
    have hg : env.isfile g = true := hpre g (List.mem_cons_self g rest)
    rw [List.cons_append]
    simp only [submitLoop, hg, if_true]
    rw [ih _ (fun x hx => hpre x (List.mem_cons_of_mem g hx))]
    simp

/-- Witness for C1 (amended): one good file, then a missing one, then
another good one. -/
theorem submit_missing_aborts_witness :
    submitLoop envT "normal" 1 (["a.sh"] ++ "missing.sh" :: ["b.sh"]) []
      = submitLoop envT "normal" 1 ["a.sh"] [] ++ [Ev.cannotFind "missing.sh"] :=
  submit_missing_aborts envT "normal" 1 ["a.sh"] ["b.sh"] "missing.sh" []
    (by decide) (by decide)

/-- A canonical persisted job-store path: a `.q` or `.r` descriptor or the
`myqs.last` counter file. -/
def canonicalStoreName (n : String) : Bool :=
  ".q".toList.isSuffixOf n.toList || ".r".toList.isSuffixOf n.toList
    || n == "myqs.last"

/-- The write operations of a trace landing directly on a canonical
job-store path (under a strict temp-file + rename discipline there would be
none). -/
def directStoreWrites (tr : List Ev) : List FsOp :=
  (opsOf tr).filter (fun o => match o with
    | .fwrite n _ => canonicalStoreName n
    | _ => false)

/-- **C5, counterexample**: submitting one file writes the new counter value
directly to `myqs.last` at its canonical path (`open(lastjob, 'w')`), so not
every write to persisted job-store state goes through a temp-file + rename. -/
theorem store_writes_counterexample :
    directStoreWrites ((submitRun envT "normal" 1 ["a.sh"] []).getD [])
      = [.fwrite "myqs.last" "1\n"] := by
  rfl

/-- Discipline of one submit-side write: direct writes go only to the temp
file, the counter or the submission lock; renames go only from the temp file
to a `.q` descriptor. -/
def writeDiscipline (o : FsOp) : Bool :=
  match o with
  | .fwrite n _ => n == "newjob.tmp" || n == "myqs.last" || n == "myqsub.pid"
  | .frename s d => s == "newjob.tmp" && ".q".toList.isSuffixOf d.toList
  | .fremove _ => true

theorem suffix_isSuffixOf (l1 l2 : List Char) : l2.isSuffixOf (l1 ++ l2) = true := by
  rw [List.isSuffixOf_iff_suffix]
  exact List.suffix_append l1 l2

theorem qname_suffix (i : Int) :
    ".q".toList.isSuffixOf ((pyStr i ++ ".q").toList) = true := by
  have h : (pyStr i ++ ".q").toList = (pyStr i).toList ++ ".q".toList :=
    String.data_append ..
  rw [h]
  exact suffix_isSuffixOf ..

theorem submitLoop_discipline (env : Env) (queue : String) (ncpus : Int) :
    ∀ (files : List String) (fs : FS),
      (opsOf (submitLoop env queue ncpus files fs)).all writeDiscipline = true := by
  intro files
  induction files with
  | nil => intro fs; rfl
  | cons f rest ih =>
    intro fs
    rw [submitLoop]
    by_cases hf : env.isfile f
    · simp only [hf, if_true]
      show (opsOf (Ev.op _ :: Ev.op _ :: Ev.op _ :: Ev.submitted _ :: _)).all _ = true
      simp only [opsOf, List.filterMap_cons, List.all_cons, Bool.and_eq_true]
      refine ⟨rfl, rfl, ?_, ?_⟩
      · show writeDiscipline (.frename "newjob.tmp" (pyStr (lastjobId fs) ++ ".q")) = true
        simp [writeDiscipline, qname_suffix]
      · exact ih _
    · simp only [hf, Bool.false_eq_true, if_false]
      rfl

theorem lockAttempt_discipline (env : Env) (fs : FS) (lops : List FsOp)
    (h : lockAttempt env fs = some lops) : lops.all writeDiscipline = true := by
  rw [lockAttempt] at h
  cases hc : readF fs "myqsub.pid" with
  | none =>
    rw [hc] at h
    simp only [Option.some_inj] at h
    subst h
    rfl
  | some c =>
    rw [hc] at h
    cases hp : pyParseInt (firstLine c) with
    | none => simp [hp] at h
    | some p =>
      by_cases ha : env.alive p
      · simp [hp, ha] at h
      · simp only [hp, ha, Bool.false_eq_true, if_false, Option.some_inj] at h
        subst h
        rfl

theorem myqsdCheck_discipline (env : Env) (fs : FS) :
    (opsOf (myqsdCheck env fs)).all writeDiscipline = true := by
  cases hc : readF fs "myqsd.pid" with
  | none => rw [myqsdCheck_none env fs hc]; rfl
  | some c =>
    cases hp : pyParseInt (firstLine c) with
    | none => rw [myqsdCheck_unparsable env fs c hc hp]; rfl
    | some p =>
      by_cases ha : env.alive p
      · rw [myqsdCheck_alive env fs c p hc hp ha]; rfl
      · rw [myqsdCheck_dead env fs c p hc hp (by simpa using ha)]; rfl

theorem opsOf_map_op (lops : List FsOp) : opsOf (lops.map Ev.op) = lops := by
  induction lops with
  | nil => rfl
  | cons o t ih => simp only [List.map_cons, opsOf, List.filterMap_cons] at ih ⊢; rw [ih]

/-- **C5 (amended)**: in a full submission run, every direct file write
targets `newjob.tmp`, `myqs.last` or `myqsub.pid`, every rename moves
`newjob.tmp` onto a `.q` path, and in particular no write ever lands
directly on a `.q`/`.r` descriptor path — job descriptors are created only
via temp-file + rename, while the counter and the lock file are written
directly in place. -/
theorem submit_write_discipline (env : Env) (queue : String) (ncpus : Int)
    (files : List String) (fs : FS) (tr : List Ev)
    (h : submitRun env queue ncpus files fs = some tr) :
    (opsOf tr).all writeDiscipline = true
    ∧ ∀ o ∈ opsOf tr, ∀ n c, o = .fwrite n c →
        (".q".toList.isSuffixOf n.toList || ".r".toList.isSuffixOf n.toList) = false := by
  have hall : (opsOf tr).all writeDiscipline = true := by
    rw [submitRun] at h
    cases hl : lockAttempt env fs with
    | none => rw [hl] at h; cases h
    | some lops =>
      rw [hl] at h
      simp only [Option.some_inj] at h
      subst h
      rw [opsOf_append, opsOf_append, opsOf_append, List.all_append,
        List.all_append, List.all_append]
      rw [opsOf_map_op]
      simp only [Bool.and_eq_true]
      exact ⟨⟨⟨lockAttempt_discipline env fs lops hl,
        submitLoop_discipline env queue ncpus files _⟩, rfl⟩,
        myqsdCheck_discipline env _⟩
  refine ⟨hall, fun o ho n c he => ?_⟩
  subst he
  have hd := List.all_eq_true.1 hall _ ho
  simp only [writeDiscipline, Bool.or_eq_true, beq_iff_eq] at hd
  rcases hd with (h1 | h1) | h1 <;> subst h1 <;> rfl

/-- Witness for C5 (amended) on a one-file batch. -/
theorem submit_write_discipline_witness :
    (opsOf ((submitRun envT "normal" 1 ["a.sh"] []).getD [])).all writeDiscipline
      = true :=
  (submit_write_discipline envT "normal" 1 ["a.sh"] []
    ((submitRun envT "normal" 1 ["a.sh"] []).getD []) (by rfl)).1

/-- A value that survives the descriptor round trip unchanged: no newline
(which would split the line) and no trailing whitespace (which the reader's
`strip()` would drop). -/
def tidyVal (s : String) : Bool :=
  s.toList.all (fun c => !(c == '\n'))
    && Option.all (fun c => !pySpace c) s.toList.getLast?

theorem splitOnNL_append (l1 l2 : List Char)
    (h : ∀ c ∈ l1, (c == '\n') = false) :
    splitOnNL (l1 ++ '\n' :: l2) = l1 :: splitOnNL l2 := by
  induction l1 with
  | nil =>
    show splitOnNL ('\n' :: l2) = [] :: splitOnNL l2
    rw [splitOnNL, if_pos rfl]
  | cons a t ih =>
    have ha : ¬(a = '\n') := by simpa using h a (List.mem_cons_self a t)
    rw [List.cons_append, splitOnNL, if_neg ha,
      ih (fun c hc => h c (List.mem_cons_of_mem a hc))]

theorem getLast?_cons_ne_nil {α : Type} {a : α} {l : List α} (h : l ≠ []) :
    (a :: l).getLast? = l.getLast? := by
  cases l with
  | nil => exact absurd rfl h
  | cons b t => exact List.getLast?_cons_cons

theorem lineKVL_key_value (k : List Char) (v : String)
    (hk0 : k ≠ [])
    (hkh : ∀ c, k.head? = some c → pySpace c = false)
    (hke : ∀ c ∈ k, (c == '=') = false)
    (hv : tidyVal v = true) :
    lineKVL (k ++ '=' :: v.toList) = some (⟨k⟩, v) := by
  have hv2 : Option.all (fun c => !pySpace c) v.toList.getLast? = true := by
    simp only [tidyVal, Bool.and_eq_true] at hv
    exact hv.2
  have hstrip : pyStripL (k ++ '=' :: v.toList) = k ++ '=' :: v.toList := by
    refine pyStripL_eq_self _ (fun c hc => ?_) (fun c hc => ?_)
    · rw [List.head?_append_of_ne_nil k hk0] at hc
      exact hkh c hc
    · rw [List.getLast?_append] at hc
      cases hvl0 : v.toList with
      | nil =>
        rw [hvl0] at hc
        have hce : '=' = c := by simpa using hc
        subst hce
        decide
      | cons b t =>
        rw [hvl0, getLast?_cons_ne_nil (List.cons_ne_nil b t)] at hc
        cases hgl : (b :: t).getLast? with
        | none =>
          rw [List.getLast?_eq_none_iff] at hgl
          exact absurd hgl (List.cons_ne_nil b t)
        | some d =>
          rw [hgl] at hc
          have hcd : d = c := by simpa using hc
          subst hcd
          rw [hvl0, hgl] at hv2
          simpa using hv2
  have hcontains : (k ++ '=' :: v.toList).contains '=' = true :=
    List.elem_eq_true_of_mem
      (List.mem_append_right k (List.mem_cons_self '=' v.toList))
  have htake : (k ++ '=' :: v.toList).takeWhile (fun c => !(c == '=')) = k := by
    rw [List.takeWhile_append_of_pos (fun a ha => by simp [hke a ha]),
      List.takeWhile_cons_of_neg (by simp), List.append_nil]
  have hdrop : (k ++ '=' :: v.toList).dropWhile (fun c => !(c == '=')) = '=' :: v.toList := by
    rw [List.dropWhile_append_of_pos (fun a ha => by simp [hke a ha]),
      List.dropWhile_cons_of_neg (by simp)]
  simp only [lineKVL, hstrip, hcontains, htake, hdrop, if_true, List.tail_cons]
  rfl

theorem seg_no_newline (k : List Char) (v : String)
    (hknl : ∀ c ∈ k, (c == '\n') = false) (hv : tidyVal v = true) :
    ∀ c ∈ k ++ '=' :: v.toList, (c == '\n') = false := by
  intro c hc
  rcases List.mem_append.1 hc with hc | hc
  · exact hknl c hc
  · rcases List.mem_cons.1 hc with hc | hc
    · subst hc; decide
    · have hall : v.toList.all (fun c => !(c == '\n')) = true := by
        simp only [tidyVal, Bool.and_eq_true] at hv
        exact hv.1
      simpa using List.all_eq_true.1 hall c hc

theorem filterMap_lineKVL_cons (a : List Char) (l : List (List Char))
    (kv : String × String) (ha : lineKVL a = some kv) :
    (a :: l).filterMap lineKVL = kv :: l.filterMap lineKVL := by
  rw [List.filterMap_cons, ha]

theorem key_head_ok (k : List Char) (c0 : Char) (hk : k.head? = some c0)
    (hc0 : pySpace c0 = false) : ∀ c, k.head? = some c → pySpace c = false := by
  intro c hc
  rw [hk] at hc
  injection hc with h
  subst h
  exact hc0

theorem pyStr_no_space (i : Int) : ∀ c ∈ (pyStr i).toList, pySpace c = false := by
  intro c hc
  rw [pyStr] at hc
  by_cases h : i < 0
  · rw [if_pos h, dash_decRepr_toList] at hc
    rcases List.mem_cons.1 hc with hc | hc
    · subst hc; decide
    · exact digit_not_space (decDigits_digits _ c hc)
  · rw [if_neg h] at hc
    exact digit_not_space (decDigits_digits i.natAbs c hc)

theorem tidyVal_pyStr (i : Int) : tidyVal (pyStr i) = true := by
  simp only [tidyVal, Bool.and_eq_true, List.all_eq_true]
  constructor
  · intro c hc
    simpa using pyStr_no_newline i c hc
  · cases hgl : (pyStr i).toList.getLast? with
    | none => rfl
    | some c =>
      have hmem : c ∈ (pyStr i).toList := List.mem_of_getLast?_eq_some hgl
      show (!pySpace c) = true
      rw [pyStr_no_space i c hmem]
      rfl

/-- **C8**: the job descriptor written at submission consists exactly of the
five newline-terminated `KEY=value` lines `COMMAND`, `DIRECTORY`, `PATH`,
`QUEUE`, `NCPUS`, in that order; read back with the status tool's own
parser it defines exactly those five keys with those values, and the `START`
and `PGID` keys are absent while the job is queued. -/
theorem descriptor_format (env : Env) (file queue : String) (ncpus : Int)
    (hf : tidyVal file = true) (hd : tidyVal env.cwd = true)
    (hp : tidyVal env.pathEnv = true) (hq : tidyVal queue = true) :
    descriptor env file queue ncpus
      = "COMMAND=" ++ file ++ "\n" ++ "DIRECTORY=" ++ env.cwd ++ "\n"
        ++ "PATH=" ++ env.pathEnv ++ "\n" ++ "QUEUE=" ++ queue ++ "\n"
        ++ "NCPUS=" ++ pyStr ncpus ++ "\n"
    ∧ infoOf (descriptor env file queue ncpus)
      = [("COMMAND", file), ("DIRECTORY", env.cwd), ("PATH", env.pathEnv),
         ("QUEUE", queue), ("NCPUS", pyStr ncpus)]
    ∧ dictGet (infoOf (descriptor env file queue ncpus)) "START" = none
    ∧ dictGet (infoOf (descriptor env file queue ncpus)) "PGID" = none := by
  have htl : (descriptor env file queue ncpus).toList
      = ("COMMAND".toList ++ '=' :: file.toList) ++ '\n' ::
        (("DIRECTORY".toList ++ '=' :: env.cwd.toList) ++ '\n' ::
        (("PATH".toList ++ '=' :: env.pathEnv.toList) ++ '\n' ::
        (("QUEUE".toList ++ '=' :: queue.toList) ++ '\n' ::
        (("NCPUS".toList ++ '=' :: (pyStr ncpus).toList) ++ '\n' :: [])))) := by
    show (descriptor env file queue ncpus).data
        = ("COMMAND".data ++ '=' :: file.data) ++ '\n' ::
          (("DIRECTORY".data ++ '=' :: env.cwd.data) ++ '\n' ::
          (("PATH".data ++ '=' :: env.pathEnv.data) ++ '\n' ::
          (("QUEUE".data ++ '=' :: queue.data) ++ '\n' ::
          (("NCPUS".data ++ '=' :: (pyStr ncpus).data) ++ '\n' :: []))))
    rw [descriptor]
    simp [List.append_assoc]
  have hinfo : infoOf (descriptor env file queue ncpus)
      = [("COMMAND", file), ("DIRECTORY", env.cwd), ("PATH", env.pathEnv),
         ("QUEUE", queue), ("NCPUS", pyStr ncpus)] := by
    rw [infoOf, htl,
      splitOnNL_append _ _ (seg_no_newline _ file (by decide) hf),
      splitOnNL_append _ _ (seg_no_newline _ env.cwd (by decide) hd),
      splitOnNL_append _ _ (seg_no_newline _ env.pathEnv (by decide) hp),
      splitOnNL_append _ _ (seg_no_newline _ queue (by decide) hq),
      splitOnNL_append _ _ (seg_no_newline _ (pyStr ncpus) (by decide)
        (tidyVal_pyStr ncpus)),
      filterMap_lineKVL_cons _ _ ("COMMAND", file)
        (by rw [lineKVL_key_value "COMMAND".toList file (by decide)
          (key_head_ok _ 'C' rfl (by decide)) (by decide) hf]; rfl),
      filterMap_lineKVL_cons _ _ ("DIRECTORY", env.cwd)
        (by rw [lineKVL_key_value "DIRECTORY".toList env.cwd (by decide)
          (key_head_ok _ 'D' rfl (by decide)) (by decide) hd]; rfl),
      filterMap_lineKVL_cons _ _ ("PATH", env.pathEnv)
        (by rw [lineKVL_key_value "PATH".toList env.pathEnv (by decide)
          (key_head_ok _ 'P' rfl (by decide)) (by decide) hp]; rfl),
      filterMap_lineKVL_cons _ _ ("QUEUE", queue)
        (by rw [lineKVL_key_value "QUEUE".toList queue (by decide)
          (key_head_ok _ 'Q' rfl (by decide)) (by decide) hq]; rfl),
      filterMap_lineKVL_cons _ _ ("NCPUS", pyStr ncpus)
        (by rw [lineKVL_key_value "NCPUS".toList (pyStr ncpus) (by decide)
          (key_head_ok _ 'N' rfl (by decide)) (by decide)
          (tidyVal_pyStr ncpus)]; rfl)]
    rfl
  refine ⟨rfl, hinfo, ?_, ?_⟩
  · rw [hinfo]; rfl
  · rw [hinfo]; rfl

/-- Witness for C8 at concrete values. -/
theorem descriptor_format_witness :
    infoOf (descriptor envT "a.sh" "normal" 1)
      = [("COMMAND", "a.sh"), ("DIRECTORY", "/work"), ("PATH", "/bin"),
         ("QUEUE", "normal"), ("NCPUS", pyStr 1)]
    ∧ dictGet (infoOf (descriptor envT "a.sh" "normal" 1)) "START" = none :=
  ⟨(descriptor_format envT "a.sh" "normal" 1 (by decide) (by decide) (by decide)
      (by decide)).2.1,
   (descriptor_format envT "a.sh" "normal" 1 (by decide) (by decide) (by decide)
      (by decide)).2.2.1⟩

theorem getLast?_append2 {α : Type} (l : List α) (a b : α) :
    (l ++ [a, b]).getLast? = some b := by
  rw [show l ++ [a, b] = (l ++ [a]) ++ [b] by simp, List.getLast?_concat]

theorem qname_ne_last (i : Int) : pyStr i ++ ".q" ≠ "myqs.last" := by
  intro h
  have hd := congrArg String.data h
  rw [String.data_append] at hd
  have h1 : ((pyStr i).data ++ (".q" : String).data).getLast? = some 'q' := by
    rw [show ((".q" : String).data) = ['.', 'q'] from rfl]
    exact getLast?_append2 ..
  rw [hd] at h1
  exact absurd h1 (by decide)

theorem takeWhile_not_nl (l : List Char) (h : ∀ c ∈ l, (c == '\n') = false) :
    (l ++ ['\n']).takeWhile (fun c => !(c == '\n')) = l := by
  rw [List.takeWhile_append_of_pos (fun a ha => by simp [h a ha]),
    List.takeWhile_cons_of_neg (by simp), List.append_nil]

theorem firstLine_pyStr_nl (i : Int) : firstLine (pyStr i ++ "\n") = pyStr i := by
  rw [firstLine]
  have hd : (pyStr i ++ "\n").toList = (pyStr i).toList ++ ['\n'] :=
    String.data_append ..
  rw [hd, takeWhile_not_nl _ (pyStr_no_newline i)]
  rfl

theorem pyParseInt_firstLine_counter (i : Int) :
    pyParseInt (firstLine (pyStr i ++ "\n")) = some i := by
  rw [firstLine_pyStr_nl, pyParseInt_pyStr]

theorem submit_step_reads (fs : FS) (c : Int) (d : String) :
    readF (applyOp (applyOp (applyOp fs (FsOp.fwrite "myqs.last" (pyStr c ++ "\n")))
        (FsOp.fwrite "newjob.tmp" d)) (FsOp.frename "newjob.tmp" (pyStr c ++ ".q")))
      (pyStr c ++ ".q") = some d
    ∧ readF (applyOp (applyOp (applyOp fs (FsOp.fwrite "myqs.last" (pyStr c ++ "\n")))
        (FsOp.fwrite "newjob.tmp" d)) (FsOp.frename "newjob.tmp" (pyStr c ++ ".q")))
      "myqs.last" = some (pyStr c ++ "\n") := by
  have h2 : readF (setF (setF fs "myqs.last" (pyStr c ++ "\n")) "newjob.tmp" d)
      "newjob.tmp" = some d := by
    rw [readF_setF, if_pos rfl]
  constructor
  · show readF (applyOp (setF (setF fs "myqs.last" _) "newjob.tmp" d)
        (FsOp.frename "newjob.tmp" (pyStr c ++ ".q"))) _ = _
    simp only [applyOp, h2]
    rw [readF_setF, if_pos rfl]
  · show readF (applyOp (setF (setF fs "myqs.last" _) "newjob.tmp" d)
        (FsOp.frename "newjob.tmp" (pyStr c ++ ".q"))) _ = _
    simp only [applyOp, h2]
    rw [readF_setF, if_neg (qname_ne_last c), readF_eraseF, if_neg (by decide),
      readF_setF, if_neg (by decide), readF_setF, if_pos rfl]

/-- Holds when every `submitted i` line of a trace is emitted at a moment at
which `<i>.q` is already present in the store obtained by applying the
preceding operations of the trace to `fs`. -/
def reportedWithFile (fs : FS) : List Ev → Bool
  | [] => true
  | Ev.op o :: rest => reportedWithFile (applyOp fs o) rest
  | Ev.submitted i :: rest =>
    (readF fs (pyStr i ++ ".q")).isSome && reportedWithFile fs rest
  | _ :: rest => reportedWithFile fs rest

/-- The store after one successful submission step from `fs`: counter
written, descriptor written to the temp file, temp file renamed. -/
def stepFS (env : Env) (queue : String) (ncpus : Int) (f : String) (fs : FS) : FS :=
  applyOp (applyOp (applyOp fs (lastjobOp fs))
    (FsOp.fwrite "newjob.tmp" (descriptor env f queue ncpus)))
    (FsOp.frename "newjob.tmp" (pyStr (lastjobId fs) ++ ".q"))

theorem range_map_shift (c : Int) (n : Nat) :
    c :: (List.range n).map (fun (j : Nat) => c + 1 + (j : Int))
      = (List.range (n + 1)).map (fun (j : Nat) => c + (j : Int)) := by
  rw [List.range_succ_eq_map, List.map_cons, List.map_map]
  congr 1
  · simp
  · apply List.map_congr_left
    intro j hj
    simp only [Function.comp_apply, Nat.succ_eq_add_one]
    push_cast
    ring

theorem submitLoop_cons_of_isfile (env : Env) (queue : String) (ncpus : Int)
    (f : String) (rest : List String) (fs : FS) (hf : env.isfile f = true) :
    submitLoop env queue ncpus (f :: rest) fs
      = Ev.op (lastjobOp fs)
        :: Ev.op (FsOp.fwrite "newjob.tmp" (descriptor env f queue ncpus))
        :: Ev.op (FsOp.frename "newjob.tmp" (pyStr (lastjobId fs) ++ ".q"))
        :: Ev.submitted (lastjobId fs)
        :: submitLoop env queue ncpus rest (stepFS env queue ncpus f fs) := by
  rw [submitLoop]
  simp only [hf, if_true]
  rfl

theorem stepFS_reads (env : Env) (queue : String) (ncpus : Int) (f : String)
    (fs : FS) :
    readF (stepFS env queue ncpus f fs) (pyStr (lastjobId fs) ++ ".q")
      = some (descriptor env f queue ncpus)
    ∧ readF (stepFS env queue ncpus f fs) "myqs.last"
      = some (pyStr (lastjobId fs) ++ "\n") :=
  submit_step_reads fs (lastjobId fs) (descriptor env f queue ncpus)

theorem lastjobId_stepFS (env : Env) (queue : String) (ncpus : Int) (f : String)
    (fs : FS) :
    lastjobId (stepFS env queue ncpus f fs)
      = if lastjobId fs + 1 > 32767 then 1 else lastjobId fs + 1 :=
  lastjobId_parsed _ (pyStr (lastjobId fs) ++ "\n") (lastjobId fs)
    (stepFS_reads env queue ncpus f fs).2
    (pyParseInt_firstLine_counter (lastjobId fs))

/-- **C2**: when all `N` command files of a batch exist and the allocated
ids stay below the wrap point, the submitted ids are exactly `N` consecutive
integers starting at the allocator's next value (so all distinct, each one
greater than its predecessor by 1), and every `submitted` line is printed at
a moment at which the corresponding `<id>.q` file is already present in the
store; with the counter file absent, a 3-file batch gets ids 1, 2, 3 (see
the witness). -/
theorem submit_batch_ids (env : Env) (queue : String) (ncpus : Int)
    (files : List String) (fs : FS)
    (hall : ∀ f ∈ files, env.isfile f = true)
    (hwrap : lastjobId fs + files.length ≤ 32768) :
    submittedIds (submitLoop env queue ncpus files fs)
      = (List.range files.length).map (fun (j : Nat) => lastjobId fs + (j : Int))
    ∧ reportedWithFile fs (submitLoop env queue ncpus files fs) = true := by
  induction files generalizing fs with
  | nil => exact ⟨rfl, rfl⟩
  | cons f rest ih =>
    have hf : env.isfile f = true := hall f (List.mem_cons_self f rest)
    rw [submitLoop_cons_of_isfile env queue ncpus f rest fs hf]
    have hq := (stepFS_reads env queue ncpus f fs).1
    cases rest with
    | nil =>
      refine ⟨by simp [submittedIds, submitLoop, List.filterMap_cons,
        List.range_succ], ?_⟩
      show reportedWithFile fs (Ev.op _ :: Ev.op _ :: Ev.op _ ::
        Ev.submitted (lastjobId fs) :: submitLoop env queue ncpus [] _) = true
      rw [reportedWithFile, reportedWithFile, reportedWithFile, reportedWithFile]
      have hq2 : (readF (stepFS env queue ncpus f fs)
          (pyStr (lastjobId fs) ++ ".q")).isSome = true := by
        rw [hq]; rfl
      show ((readF (stepFS env queue ncpus f fs)
          (pyStr (lastjobId fs) ++ ".q")).isSome
        && reportedWithFile (stepFS env queue ncpus f fs)
             (submitLoop env queue ncpus [] (stepFS env queue ncpus f fs))) = true
      rw [hq2]
      rfl
    | cons g rest2 =>
      have hwrap1 : ¬(lastjobId fs + 1 > 32767) := by
        simp only [List.length_cons] at hwrap
        push_cast at hwrap
        omega
      have hnext1 : lastjobId (stepFS env queue ncpus f fs) = lastjobId fs + 1 := by
        rw [lastjobId_stepFS, if_neg hwrap1]
      have hwrap2 : lastjobId (stepFS env queue ncpus f fs)
          + (g :: rest2).length ≤ 32768 := by
        rw [hnext1]
        simp only [List.length_cons] at hwrap ⊢
        push_cast at hwrap ⊢
        omega
      obtain ⟨hids, hrep⟩ := ih (stepFS env queue ncpus f fs)
        (fun x hx => hall x (List.mem_cons_of_mem f hx)) hwrap2
      constructor
      · show lastjobId fs :: submittedIds (submitLoop env queue ncpus (g :: rest2)
          (stepFS env queue ncpus f fs)) = _
        rw [hids, hnext1,
          show (f :: g :: rest2).length = (g :: rest2).length + 1 from rfl]
        exact range_map_shift (lastjobId fs) (g :: rest2).length
      · show reportedWithFile fs (Ev.op _ :: Ev.op _ :: Ev.op _ ::
          Ev.submitted (lastjobId fs)
          :: submitLoop env queue ncpus (g :: rest2) _) = true
        rw [reportedWithFile, reportedWithFile, reportedWithFile, reportedWithFile]
        have hq2 : (readF (stepFS env queue ncpus f fs)
            (pyStr (lastjobId fs) ++ ".q")).isSome = true := by
          rw [hq]; rfl
        show ((readF (stepFS env queue ncpus f fs)
            (pyStr (lastjobId fs) ++ ".q")).isSome
          && reportedWithFile (stepFS env queue ncpus f fs)
               (submitLoop env queue ncpus (g :: rest2)
                 (stepFS env queue ncpus f fs))) = true
        rw [hq2, hrep]
        rfl

/-- Witness for C2: counter absent, three files, ids 1, 2, 3, each reported
with its `.q` file present. -/
theorem submit_batch_ids_witness :
    submittedIds (submitLoop envT "normal" 1 ["a.sh", "b.sh", "c.sh"] []) = [1, 2, 3]
    ∧ reportedWithFile [] (submitLoop envT "normal" 1 ["a.sh", "b.sh", "c.sh"] [])
      = true := by
  have h := submit_batch_ids envT "normal" 1 ["a.sh", "b.sh", "c.sh"] []
    (by decide) (by decide)
  refine ⟨?_, h.2⟩
  rw [h.1]
  decide

theorem mkLine_spec (info : List (String × String)) (i : Int) (st : String)
    (tail : List String) (line : DisplayLine)
    (h : mkLine info i st tail = some line) :
    line.state = st ∧ line.jobid = i ∧ line.logTail = tail := by
  rw [mkLine] at h
  cases hq : dictGet info "QUEUE" with
  | none => rw [hq] at h; cases h
  | some q =>
    rw [hq] at h
    cases hc : dictGet info "COMMAND" with
    | none => rw [hc] at h; cases h
    | some c =>
      rw [hc] at h
      cases hn : dictGet info "NCPUS" with
      | none => rw [hn] at h; cases h
      | some n =>
        rw [hn] at h
        injection h with h2
        subst h2
        exact ⟨rfl, rfl, rfl⟩

/-- **C6, counterexample**: a `.q` descriptor (queue-file) that itself
carries `START=0` and a dead `PGID` is displayed `STOP`, although the claim
allows `STOPPED` only for run-files; the store holds only `5.q`, the
descriptor is read with the queue state, yet the shown state is `STOP`. -/
theorem stop_state_counterexample :
    readJobContent
        [("5.q", "QUEUE=normal\nCOMMAND=a.sh\nNCPUS=1\nSTART=0\nPGID=99\n")] 5
      = some ("QUEUE=normal\nCOMMAND=a.sh\nNCPUS=1\nSTART=0\nPGID=99\n", "QUEUE")
    ∧ showJobs envT
        [("5.q", "QUEUE=normal\nCOMMAND=a.sh\nNCPUS=1\nSTART=0\nPGID=99\n")]
      = some [⟨5, "normal", "a.sh", "1", "STOP", []⟩] :=
  ⟨rfl, rfl⟩

/-- **C6 (amended)**: a displayed job is shown `STOP` iff the descriptor it
was read from records a `START` value parsing to a *finite* float together
with a `PGID` value parsing to a process group with no live members —
regardless of whether that descriptor is the `.q` or the `.r` file; when
that condition fails and the row is displayed at all, the state shown is
the one derived from the extension (`QUEUE` for a queue-file, `RUN` for a
run-file; a `START` that `float()` rejects or that parses to a nan takes
the caught-`ValueError` path and leaves the state unchanged, while a
`START` parsing to ±infinity aborts the run with an uncaught
`OverflowError` and displays nothing). -/
theorem stop_state_iff (env : Env) (fs : FS) (i : Int)
    (content state0 : String) (line : DisplayLine)
    (hread : readJobContent fs i = some (content, state0))
    (hline : showJob env fs i = some [line]) :
    (line.state = "STOP" ↔ stopCond env (infoOf content) = true)
    ∧ (stopCond env (infoOf content) = false → line.state = state0) := by
  have hstate0 : state0 = "QUEUE" ∨ state0 = "RUN" := by
    rw [readJobContent] at hread
    cases h1 : readF fs (pyStr i ++ ".q") with
    | some c =>
      rw [h1] at hread
      injection hread with h2
      exact Or.inl (congrArg Prod.snd h2).symm
    | none =>
      rw [h1] at hread
      cases h2 : readF fs (pyStr i ++ ".r") with
      | some c =>
        rw [h2] at hread
        injection hread with h3
        exact Or.inr (congrArg Prod.snd h3).symm
      | none => rw [h2] at hread; cases hread
  have hjf : showJobFrom env content i state0 = some [line] := by
    rw [showJob, hread] at hline
    exact hline
  rw [showJobFrom] at hjf
  by_cases hn : (dictGet (infoOf content) "NCPUS").isSome
  case neg =>
    rw [if_neg hn] at hjf
    injection hjf with h2
    simp at h2
  rw [if_pos hn] at hjf
  have hsd : ∃ l0, showDetails env (infoOf content) i state0 = some l0
      ∧ l0 = line := by
    cases hsd0 : showDetails env (infoOf content) i state0 with
    | none => rw [hsd0] at hjf; simp at hjf
    | some l0 =>
      rw [hsd0] at hjf
      simp only [Option.map_some'] at hjf
      injection hjf with h2
      injection h2 with h3
      exact ⟨l0, rfl, h3⟩
  obtain ⟨l0, hsd, hl0⟩ := hsd
  subst hl0
  rw [showDetails] at hsd
  have finish_nonstop : l0.state = state0 →
      stopCond env (infoOf content) = false →
      ((l0.state = "STOP" ↔ stopCond env (infoOf content) = true)
       ∧ (stopCond env (infoOf content) = false → l0.state = state0)) := by
    intro hls hsc
    refine ⟨?_, fun _ => hls⟩
    rw [hsc]
    simp only [Bool.false_eq_true, iff_false]
    intro hst
    rw [hls] at hst
    rcases hstate0 with h0 | h0 <;> rw [h0] at hst <;> exact absurd hst (by decide)
  cases hstart : dictGet (infoOf content) "START" with
  | none =>
    simp only [hstart] at hsd
    have hsc : stopCond env (infoOf content) = false := by
      rw [stopCond, hstart]
    exact finish_nonstop (mkLine_spec _ _ _ _ _ hsd).1 hsc
  | some start =>
    simp only [hstart] at hsd
    cases hfc : pyFloatClass start with
    | notFloat =>
      simp only [hfc] at hsd
      have hsc : stopCond env (infoOf content) = false := by
        rw [stopCond]
        simp only [hstart, hfc]
        rfl
      exact finish_nonstop (mkLine_spec _ _ _ _ _ hsd).1 hsc
    | nanVal =>
      simp only [hfc] at hsd
      have hsc : stopCond env (infoOf content) = false := by
        rw [stopCond]
        simp only [hstart, hfc]
        rfl
      exact finish_nonstop (mkLine_spec _ _ _ _ _ hsd).1 hsc
    | infVal =>
      simp only [hfc] at hsd
      cases hsd
    | finiteVal =>
      simp only [hfc] at hsd
      cases hpg : dictGet (infoOf content) "PGID" with
      | none => simp only [hpg] at hsd; cases hsd
      | some pg =>
        simp only [hpg] at hsd
        cases hpp : pyParseInt pg with
        | none =>
          simp only [hpp] at hsd
          have hsc : stopCond env (infoOf content) = false := by
            rw [stopCond]
            simp [hstart, hfc, hpg, hpp]
          exact finish_nonstop (mkLine_spec _ _ _ _ _ hsd).1 hsc
        | some pgid =>
          simp only [hpp] at hsd
          by_cases hal : env.alivePg pgid
          case pos =>
            rw [if_pos hal] at hsd
            have hsc : stopCond env (infoOf content) = false := by
              rw [stopCond]
              simp [hstart, hfc, hpg, hpp, hal]
            cases hdir : dictGet (infoOf content) "DIRECTORY" with
            | none => simp only [hdir] at hsd; cases hsd
            | some dir =>
              simp only [hdir] at hsd
              cases hcmd : dictGet (infoOf content) "COMMAND" with
              | none => simp only [hcmd] at hsd; cases hsd
              | some cmd =>
                simp only [hcmd] at hsd
                exact finish_nonstop (mkLine_spec _ _ _ _ _ hsd).1 hsc
          case neg =>
            rw [if_neg hal] at hsd
            have hls : l0.state = "STOP" := (mkLine_spec _ _ _ _ _ hsd).1
            have hal2 : env.alivePg pgid = false := by simpa using hal
            have hsc : stopCond env (infoOf content) = true := by
              rw [stopCond]
              simp [hstart, hfc, hpg, hpp, hal2]
            refine ⟨?_, fun hf => ?_⟩
            · rw [hsc]
              simp [hls]
            · rw [hsc] at hf
              exact absurd hf (by decide)

/-- Witness for C6 (amended): a run-file with a dead process group shows
`STOP`, and the stop condition indeed holds for its descriptor. -/
theorem stop_state_iff_witness :
    (⟨5, "normal", "b.sh", "2", "STOP", []⟩ : DisplayLine).state = "STOP"
      ↔ stopCond envT
          (infoOf "QUEUE=normal\nCOMMAND=b.sh\nNCPUS=2\nSTART=0\nPGID=99\n")
        = true :=
  (stop_state_iff envT
    [("5.r", "QUEUE=normal\nCOMMAND=b.sh\nNCPUS=2\nSTART=0\nPGID=99\n")] 5
    "QUEUE=normal\nCOMMAND=b.sh\nNCPUS=2\nSTART=0\nPGID=99\n" "RUN"
    ⟨5, "normal", "b.sh", "2", "STOP", []⟩ (by rfl) (by rfl)).1

theorem pyStr_toList_ne_nil (i : Int) : (pyStr i).toList ≠ [] := by
  rw [pyStr]
  by_cases h : i < 0
  · rw [if_pos h, dash_decRepr_toList]
    exact List.cons_ne_nil '-' (decDigits i.natAbs)
  · rw [if_neg h]
    exact decDigits_ne_nil _

theorem pyStr_chars (i : Int) :
    ∀ c ∈ (pyStr i).toList, c = '-' ∨ c.isDigit = true := by
  intro c hc
  rw [pyStr] at hc
  by_cases h : i < 0
  · rw [if_pos h, dash_decRepr_toList] at hc
    rcases List.mem_cons.1 hc with hc | hc
    · exact Or.inl hc
    · exact Or.inr (decDigits_digits _ c hc)
  · rw [if_neg h] at hc
    exact Or.inr (decDigits_digits i.natAbs c hc)

theorem head_not_dot (i : Int) (a : Char) (t : List Char)
    (hl : (pyStr i).toList = a :: t) : a ≠ '.' := by
  rcases pyStr_chars i a (hl ▸ List.mem_cons_self a t) with h1 | h1
  · subst h1; decide
  · exact digit_ne h1 (by decide)

theorem stripExt2_qr (i : Int) (x : Char)
    (htl : (pyStr i ++ (⟨['.', x]⟩ : String)).toList = (pyStr i).toList ++ ['.', x]) :
    stripExt2 (pyStr i ++ (⟨['.', x]⟩ : String)) = pyStr i := by
  rw [stripExt2, htl,
    show (pyStr i).toList ++ ['.', x] = ((pyStr i).toList ++ ['.']) ++ [x] by simp,
    List.dropLast_concat, List.dropLast_concat]
  rfl

theorem gName_q (i : Int) : gName (pyStr i ++ ".q") = some i := by
  have htl : (pyStr i ++ ".q").toList = (pyStr i).toList ++ ['.', 'q'] :=
    String.data_append ..
  have hmq : matchQR (pyStr i ++ ".q") = true := by
    rw [matchQR, htl, Bool.and_eq_true]
    constructor
    · cases hl : (pyStr i).toList with
      | nil => exact absurd hl (pyStr_toList_ne_nil i)
      | cons a t =>
        rw [List.cons_append]
        show (!((a :: (t ++ ['.', 'q'])).head? == some '.')) = true
        simp [head_not_dot i a t hl]
    · rw [Bool.or_eq_true]
      left
      exact suffix_isSuffixOf ..
  rw [gName, if_pos hmq,
    show (".q" : String) = (⟨['.', 'q']⟩ : String) from rfl] at *
  rw [stripExt2_qr i 'q' htl, pyParseInt_pyStr]

theorem gName_r (i : Int) : gName (pyStr i ++ ".r") = some i := by
  have htl : (pyStr i ++ ".r").toList = (pyStr i).toList ++ ['.', 'r'] :=
    String.data_append ..
  have hmq : matchQR (pyStr i ++ ".r") = true := by
    rw [matchQR, htl, Bool.and_eq_true]
    constructor
    · cases hl : (pyStr i).toList with
      | nil => exact absurd hl (pyStr_toList_ne_nil i)
      | cons a t =>
        rw [List.cons_append]
        show (!((a :: (t ++ ['.', 'r'])).head? == some '.')) = true
        simp [head_not_dot i a t hl]
    · rw [Bool.or_eq_true]
      right
      exact suffix_isSuffixOf ..
  rw [gName, if_pos hmq,
    show (".r" : String) = (⟨['.', 'r']⟩ : String) from rfl] at *
  rw [stripExt2_qr i 'r' htl, pyParseInt_pyStr]

theorem qname_ne_rname (i : Int) : pyStr i ++ ".q" ≠ pyStr i ++ ".r" := by
  intro h
  have hd := congrArg String.data h
  rw [String.data_append, String.data_append] at hd
  have h2 := List.append_cancel_left hd
  exact absurd h2 (by decide)

theorem readF_cons_ne (m c n : String) (fs : FS) (h : m ≠ n) :
    readF ((m, c) :: fs) n = readF fs n := by
  rw [readF_cons, if_neg h]

/-- Silently-ignored directory entries leave the report unchanged: adding an
entry the glob does not match, or whose basename `int()` rejects, changes
nothing in the displayed table. -/
theorem showJobs_ignored (env : Env) (fs : FS) (n c : String)
    (hg : gName n = none) :
    showJobs env ((n, c) :: fs) = showJobs env fs := by
  have hne : ∀ i : Int, n ≠ pyStr i ++ ".q" ∧ n ≠ pyStr i ++ ".r" := by
    intro i
    constructor <;> intro he <;> rw [he] at hg
    · rw [gName_q i] at hg; cases hg
    · rw [gName_r i] at hg; cases hg
  have hids : jobidsOf ((n, c) :: fs) = jobidsOf fs := by
    simp [jobidsOf, List.filterMap_cons, hg]
  have hjob : ∀ ids, showJobsList env ((n, c) :: fs) ids
      = showJobsList env fs ids := by
    intro ids
    induction ids with
    | nil => rfl
    | cons i rest ih =>
      have hrc : readJobContent ((n, c) :: fs) i = readJobContent fs i := by
        rw [readJobContent, readJobContent, readF_cons_ne _ _ _ _ (hne i).1,
          readF_cons_ne _ _ _ _ (hne i).2]
      have hsj : showJob env ((n, c) :: fs) i = showJob env fs i := by
        rw [showJob, showJob, hrc]
      rw [showJobsList, showJobsList, hsj, ih]
  rw [showJobs, showJobs, hids]
  exact hjob _

theorem count_filterMap_two {α : Type} (g : α → Option Int) (l : List α)
    (a b : α) (i : Int) (ha : a ∈ l) (hb : b ∈ l) (hab : a ≠ b)
    (hga : g a = some i) (hgb : g b = some i) :
    2 ≤ (l.filterMap g).count i := by
  induction l with
  | nil => cases ha
  | cons x t ih =>
    rcases List.mem_cons.1 ha with hax | hat
    · subst hax
      have hbt : b ∈ t := by
        rcases List.mem_cons.1 hb with hbx | hbt
        · exact absurd hbx.symm hab
        · exact hbt
      rw [List.filterMap_cons, hga, List.count_cons_self]
      have h1 : 0 < (t.filterMap g).count i :=
        List.count_pos_iff.2 (List.mem_filterMap.2 ⟨b, hbt, hgb⟩)
      omega
    · rcases List.mem_cons.1 hb with hbx | hbt
      · subst hbx
        rw [List.filterMap_cons, hgb, List.count_cons_self]
        have h1 : 0 < (t.filterMap g).count i :=
          List.count_pos_iff.2 (List.mem_filterMap.2 ⟨a, hat, hga⟩)
        omega
      · have h2 := ih hat hbt
        rw [List.filterMap_cons]
        cases hx : g x with
        | none => exact h2
        | some y =>
          rw [List.count_cons]
          have h0 : (0 : Nat) ≤ if i = y then 1 else 0 := by positivity
          omega

theorem readF_entry (fs : FS) (name content : String)
    (h : readF fs name = some content) :
    ∃ p, p ∈ fs ∧ p.1 = name := by
  rw [readF] at h
  obtain ⟨p, hfind, hp2⟩ := Option.map_eq_some'.1 h
  refine ⟨p, List.mem_of_find?_eq_some hfind, ?_⟩
  have := List.find?_some hfind
  simpa using this

/-- When both `<i>.q` and `<i>.r` are present: the id is collected once per
file (count at least two in the pre-sort `jobids`), each occurrence reads the
`.q` descriptor (queue state), and — provided that descriptor carries no
`START` key — every line it displays is in the `QUEUE` state. -/
theorem qr_precedence (env : Env) (fs : FS) (i : Int) (qc rc : String)
    (hq : readF fs (pyStr i ++ ".q") = some qc)
    (hr : readF fs (pyStr i ++ ".r") = some rc) :
    2 ≤ (jobidsOf fs).count i
    ∧ showJob env fs i = showJobFrom env qc i "QUEUE"
    ∧ (dictGet (infoOf qc) "START" = none →
        ∀ line ∈ (showJobFrom env qc i "QUEUE").getD [], line.state = "QUEUE") := by
  refine ⟨?_, ?_, ?_⟩
  · obtain ⟨pq, hpq_mem, hpq_name⟩ := readF_entry fs _ _ hq
    obtain ⟨pr, hpr_mem, hpr_name⟩ := readF_entry fs _ _ hr
    have hab : pq ≠ pr := by
      intro he
      rw [he, hpr_name] at hpq_name
      exact qname_ne_rname i hpq_name.symm
    refine count_filterMap_two (fun p => gName p.1) fs pq pr i hpq_mem hpr_mem hab
      ?_ ?_
    · show gName pq.1 = some i
      rw [hpq_name, gName_q]
    · show gName pr.1 = some i
      rw [hpr_name, gName_r]
  · have hrc : readJobContent fs i = some (qc, "QUEUE") := by
      rw [readJobContent, hq]
    rw [showJob, hrc]
  · intro hstart line hline
    by_cases hn : (dictGet (infoOf qc) "NCPUS").isSome
    · rw [showJobFrom, if_pos hn, showDetails] at hline
      simp only [hstart] at hline
      cases hm : mkLine (infoOf qc) i "QUEUE" [] with
      | none => rw [hm] at hline; simp at hline
      | some l0 =>
        rw [hm] at hline
        simp only [Option.map_some', Option.getD_some, List.mem_singleton] at hline
        subst hline
        exact (mkLine_spec _ _ _ _ _ hm).1
    · rw [showJobFrom, if_neg hn] at hline
      simp at hline

/-- **C10 (amended)**: a directory entry the glob does not match, or whose
basename before the two-character extension `int()` rejects, is silently
ignored (adding such an entry leaves the report unchanged); when both
`<id>.q` and `<id>.r` exist for one id, the id is listed once per file
found and the job is read from the `.q` file both times — but it is
displayed in the queued state only provided its `.q` descriptor carries no
`START` entry (a `.q` descriptor with `START` and a dead `PGID` shows
`STOPPED` instead, per the stop-state rule). -/
theorem scan_ignored_and_precedence (env : Env) (fs : FS) (n c : String)
    (i : Int) (qc rc : String) :
    (gName n = none → showJobs env ((n, c) :: fs) = showJobs env fs)
    ∧ (readF fs (pyStr i ++ ".q") = some qc →
       readF fs (pyStr i ++ ".r") = some rc →
        2 ≤ (jobidsOf fs).count i
        ∧ showJob env fs i = showJobFrom env qc i "QUEUE"
        ∧ (dictGet (infoOf qc) "START" = none →
            ∀ line ∈ (showJobFrom env qc i "QUEUE").getD [],
              line.state = "QUEUE")) :=
  ⟨fun hg => showJobs_ignored env fs n c hg,
   fun hq hr => qr_precedence env fs i qc rc hq hr⟩

/-- **C10, counterexample**: with both `5.q` and `5.r` present the id is
listed once per file and read from the `.q` file each time — but since this
`.q` descriptor carries `START` and a dead `PGID`, both rows display `STOP`
rather than the queued state the claim asserts. -/
theorem qr_precedence_counterexample :
    showJobs envT
        [("5.q", "QUEUE=normal\nCOMMAND=a.sh\nNCPUS=1\nSTART=0\nPGID=99\n"),
         ("5.r", "QUEUE=normal\nCOMMAND=a.sh\nNCPUS=1\n")]
      = some [⟨5, "normal", "a.sh", "1", "STOP", []⟩,
              ⟨5, "normal", "a.sh", "1", "STOP", []⟩] :=
  rfl

/-- Witness for C10 (amended): a non-integer entry is ignored, and a
duplicated id is counted twice. -/
theorem scan_ignored_and_precedence_witness :
    showJobs envT (("abc.q", "x") ::
        [("7.q", "QUEUE=normal\nCOMMAND=a.sh\nNCPUS=1\n"),
         ("7.r", "QUEUE=normal\nCOMMAND=a.sh\nNCPUS=1\nSTART=0\nPGID=7\n")])
      = showJobs envT
        [("7.q", "QUEUE=normal\nCOMMAND=a.sh\nNCPUS=1\n"),
         ("7.r", "QUEUE=normal\nCOMMAND=a.sh\nNCPUS=1\nSTART=0\nPGID=7\n")]
    ∧ 2 ≤ (jobidsOf
        [("7.q", "QUEUE=normal\nCOMMAND=a.sh\nNCPUS=1\n"),
         ("7.r", "QUEUE=normal\nCOMMAND=a.sh\nNCPUS=1\nSTART=0\nPGID=7\n")]).count 7 := by
  have h := scan_ignored_and_precedence envT
    [("7.q", "QUEUE=normal\nCOMMAND=a.sh\nNCPUS=1\n"),
     ("7.r", "QUEUE=normal\nCOMMAND=a.sh\nNCPUS=1\nSTART=0\nPGID=7\n")]
    "abc.q" "x" 7 "QUEUE=normal\nCOMMAND=a.sh\nNCPUS=1\n"
    "QUEUE=normal\nCOMMAND=a.sh\nNCPUS=1\nSTART=0\nPGID=7\n"
  exact ⟨h.1 (by rfl), (h.2 (by rfl) (by rfl)).1⟩

end MyQS
